import Mathlib

/-!
Verification development for the `sparp` concurrent request-dispatch pipeline
(`src/sparp/sparp.py`).

The pipeline is embedded as a small-step interleaving semantics over a global
state `PState`.  Each step corresponds to one run-to-next-`await` slice of one
coroutine of `async_main` (producer, one of the `max_outstanding_requests`
consumers, the canceler, or the progress updater): in a single-threaded asyncio
event loop the code between two suspension points executes atomically, so each
such slice is one atomic transition here.

The external HTTP collaborator (`session.request` together with
`response.text()` / `response.json()`) is modelled by an oracle
`env : Nat -> RequestResult` mapping each task config to either a completed
response (body text, status code, json-decoding outcome, elapsed time) or a
raised exception carrying a diagnostic message.
-/

namespace Sparp

/-- Outcome of `response.json()`: either the decoded value (abstracted as a
string) or the message of the exception it raised. -/
inductive JsonParse where
  | ok (v : String)
  | error (e : String)
deriving DecidableEq

/-- Result of one call of the external execution collaborator
(`session.request` plus reading the body): either a completed response or a
raised exception whose formatted traceback is the carried message. -/
inductive RequestResult where
  | ok (text : String) (status : Int) (jsonParse : JsonParse) (elapsed : Rat)
  | exn (message : String)
deriving DecidableEq

/-- Value stored under the `json` key of a response dict: the parsed body, or
the embedded decode-failure message (the code stores the string
`f"Failed to decode json due to {str(e)}"` in the same slot). -/
inductive JsonValue where
  | parsed (v : String)
  | decodeFailure (msg : String)
deriving DecidableEq

/-- The `response` dict built by `consumer`.  Python dicts have optional keys,
so every field is an `Option`; `none` means the key is absent. -/
structure ResponseDict where
  text : Option String := none
  status_code : Option Int := none
  json : Option JsonValue := none
  elapsed : Option Rat := none
  error_message : Option String := none
deriving DecidableEq

/-- The json field computed by the `try: json_ = await response.json()` block:
on a decode exception the error text is embedded as the value. -/
def jsonField : JsonParse → JsonValue
  | .ok v => .parsed v
  | .error e => .decodeFailure ("Failed to decode json due to " ++ e)

/-- The response dict `consumer` builds from one collaborator call
(lines 143-158 of `sparp.py`): a success-shaped record on completion, an
`error_message`-only record when the call raised. -/
def buildResponse : RequestResult → ResponseDict
  | .ok text status jsonParse elapsed =>
      { text := some text
        status_code := some status
        json := some (jsonField jsonParse)
        elapsed := some elapsed
        error_message := none }
  | .exn message => { error_message := some message }

/-- How an appended outcome is counted. -/
inductive Classified where
  | success
  | fail
deriving DecidableEq

/-- The classification expression of `consumer`:
`'error_message' in response or response['status_code'] not in ok_status_codes`.
`none` models the `KeyError` that `response['status_code']` would raise if
neither key were present (Python `or` short-circuits, so the lookup only
happens when `error_message` is absent). -/
def classify (ok_status_codes : List Int) (r : ResponseDict) : Option Classified :=
  if r.error_message.isSome then some .fail
  else
    match r.status_code with
    | none => none
    | some c => if c ∈ ok_status_codes then some .success else some .fail

/-- The claim-relevant fields of `SharedMemory`; `total = -1` encodes an
unknown total, as in the source.  The progress-bar fields (`cols`,
`start_time`, `print_options`, `disable_bar`) only affect printing and are
omitted. -/
structure SharedMemory where
  done : Nat := 0
  success : Nat := 0
  fail : Nat := 0
  total : Int := -1
  should_stop : Bool := false
deriving DecidableEq

/-- `SharedMemory.increment_success`: one lock-protected critical section
updating `done` together with `success`. -/
def increment_success (m : SharedMemory) : SharedMemory :=
  { m with done := m.done + 1, success := m.success + 1 }

/-- `SharedMemory.increment_fail`: one lock-protected critical section
updating `done` together with `fail`. -/
def increment_fail (m : SharedMemory) : SharedMemory :=
  { m with done := m.done + 1, fail := m.fail + 1 }

/-- `SharedMemory.set_should_stop`. -/
def set_should_stop (m : SharedMemory) : SharedMemory :=
  { m with should_stop := true }

/-- `SharedMemory.get_should_stop`. -/
def get_should_stop (m : SharedMemory) : Bool :=
  m.should_stop

/-- `SharedMemory.check_done`: `self.total == self.done`. -/
def check_done (m : SharedMemory) : Bool :=
  decide (m.total = (m.done : Int))

/-- `SharedMemory.set_total`: writes only when `total` is still unknown. -/
def set_total (m : SharedMemory) (t : Int) : SharedMemory :=
  if m.total = -1 then { m with total := t } else m

/-- State of the `producer` coroutine: still looping with the remaining items
and the count emitted so far (the local variable `total` of `producer`), or
finished after `set_total`. -/
inductive ProdState where
  | running (remaining : List Nat) (count : Nat)
  | finished (count : Nat)
deriving DecidableEq

/-- State of one `consumer` coroutine, one constructor per suspension region
of its loop body. -/
inductive ConsState where
  /-- blocked on (or about to run) `source_semaphore.acquire()`. -/
  | idle
  /-- holding a dequeued config with the collaborator call in flight. -/
  | calling (config : Nat)
  /-- response dict built, about to `sink_queue.put(response)`. -/
  | appending (r : ResponseDict)
  /-- response appended, about to run `increment_fail` / `increment_success`. -/
  | updating (r : ResponseDict)
  /-- `increment_fail` done, about to run `set_should_stop`. -/
  | stopping
  /-- left the loop after acquiring a permit and finding the queue empty. -/
  | exited
deriving DecidableEq

/-- State of the `canceler` coroutine: polling (sleeping), holding the value
just read by `check_done` (between its two lock acquisitions), or finished
after the bulk release. -/
inductive CancState where
  | polling
  | observed (is_done : Bool)
  | finished
deriving DecidableEq

/-- State of the `updater` (progress reporter) coroutine. -/
inductive UpdState where
  | polling
  | finished
deriving DecidableEq

/-- Global state of one run of `async_main`.  `cancelReleases` instruments the
number of bulk permit releases the canceler has performed; it affects no
transition guard. -/
structure PState where
  shared : SharedMemory
  source_queue : List Nat
  source_semaphore : Nat
  sink_queue : List ResponseDict
  prod : ProdState
  cons : List ConsState
  canc : CancState
  upd : UpdState
  cancelReleases : Nat
deriving DecidableEq

/-- The run parameters of `async_sparp` / `async_main`: the task configs
(abstracted to ids), the pool size, the collaborator oracle, and the
classification / stop configuration.  `sized` records whether
`hasattr(configs, '__len__')` held. -/
structure Ctx where
  configs : List Nat
  max_outstanding_requests : Nat
  env : Nat → RequestResult
  ok_status_codes : List Int
  stop_on_first_fail : Bool
  sized : Bool

/-- The state `async_sparp` assembles before `async_main` starts: empty
queues, a zero semaphore, counters at zero, `total` known only for sized
sources, and every coroutine at the top of its loop. -/
def initState (ctx : Ctx) : PState :=
  { shared :=
      { done := 0, success := 0, fail := 0
        total := if ctx.sized then (ctx.configs.length : Int) else -1
        should_stop := false }
    source_queue := []
    source_semaphore := 0
    sink_queue := []
    prod := .running ctx.configs 0
    cons := List.replicate ctx.max_outstanding_requests .idle
    canc := .polling
    upd := .polling
    cancelReleases := 0 }

/-- One atomic scheduling slice of `async_main`. -/
inductive Step (ctx : Ctx) : PState → PState → Prop where
  /-- `producer` loop body: `await source_queue.put(item)`,
  `source_semaphore.release()`, then suspend on
  `await asyncio.sleep(time_between_requests)`. -/
  | prodEmit (s : PState) (c : Nat) (rest : List Nat) (cnt : Nat)
      (h : s.prod = .running (c :: rest) cnt) :
      Step ctx s { s with
        prod := .running rest (cnt + 1)
        source_queue := s.source_queue ++ [c]
        source_semaphore := s.source_semaphore + 1 }
  /-- `producer` after the loop: `await shared.set_total(total)`. -/
  | prodFinish (s : PState) (cnt : Nat)
      (h : s.prod = .running [] cnt) :
      Step ctx s { s with
        prod := .finished cnt
        shared := set_total s.shared cnt }
  /-- consumer `i`: `acquire()` succeeds and the immediately following
  `source_queue.get_nowait()` finds an item. -/
  | consDequeue (s : PState) (i : Nat) (c : Nat) (rest : List Nat)
      (hc : s.cons[i]? = some .idle)
      (hs : 0 < s.source_semaphore)
      (hq : s.source_queue = c :: rest) :
      Step ctx s { s with
        source_semaphore := s.source_semaphore - 1
        source_queue := rest
        cons := s.cons.set i (.calling c) }
  /-- consumer `i`: `acquire()` succeeds, `get_nowait()` raises `QueueEmpty`,
  the loop breaks. -/
  | consExit (s : PState) (i : Nat)
      (hc : s.cons[i]? = some .idle)
      (hs : 0 < s.source_semaphore)
      (hq : s.source_queue = []) :
      Step ctx s { s with
        source_semaphore := s.source_semaphore - 1
        cons := s.cons.set i .exited }
  /-- consumer `i`: the collaborator call returns (or raises) and the
  `response` dict is built. -/
  | consCallReturn (s : PState) (i : Nat) (c : Nat)
      (hc : s.cons[i]? = some (.calling c)) :
      Step ctx s { s with
        cons := s.cons.set i (.appending (buildResponse (ctx.env c))) }
  /-- consumer `i`: `await sink_queue.put(response)`. -/
  | consAppend (s : PState) (i : Nat) (r : ResponseDict)
      (hc : s.cons[i]? = some (.appending r)) :
      Step ctx s { s with
        sink_queue := s.sink_queue ++ [r]
        cons := s.cons.set i (.updating r) }
  /-- consumer `i`: the outcome classified success,
  `await shared.increment_success()`. -/
  | consSuccess (s : PState) (i : Nat) (r : ResponseDict)
      (hc : s.cons[i]? = some (.updating r))
      (hcl : classify ctx.ok_status_codes r = some .success) :
      Step ctx s { s with
        shared := increment_success s.shared
        cons := s.cons.set i .idle }
  /-- consumer `i`: the outcome classified fail,
  `await shared.increment_fail()`, with `stop_on_first_fail` configured so
  `set_should_stop` is still pending. -/
  | consFailStop (s : PState) (i : Nat) (r : ResponseDict)
      (hc : s.cons[i]? = some (.updating r))
      (hcl : classify ctx.ok_status_codes r = some .fail)
      (hf : ctx.stop_on_first_fail = true) :
      Step ctx s { s with
        shared := increment_fail s.shared
        cons := s.cons.set i .stopping }
  /-- consumer `i`: the outcome classified fail,
  `await shared.increment_fail()`, without `stop_on_first_fail`. -/
  | consFailCont (s : PState) (i : Nat) (r : ResponseDict)
      (hc : s.cons[i]? = some (.updating r))
      (hcl : classify ctx.ok_status_codes r = some .fail)
      (hf : ctx.stop_on_first_fail = false) :
      Step ctx s { s with
        shared := increment_fail s.shared
        cons := s.cons.set i .idle }
  /-- consumer `i`: `await shared.set_should_stop()`. -/
  | consSetStop (s : PState) (i : Nat)
      (hc : s.cons[i]? = some .stopping) :
      Step ctx s { s with
        shared := set_should_stop s.shared
        cons := s.cons.set i .idle }
  /-- `canceler`: `is_done = await shared.check_done()`. -/
  | cancObserve (s : PState)
      (h : s.canc = .polling) :
      Step ctx s { s with canc := .observed (check_done s.shared) }
  /-- `canceler`: `should_stop = await shared.get_should_stop()`, the
  condition holds, so the `n_consumers` releases and the `break` run in the
  same slice. -/
  | cancRelease (s : PState) (d : Bool)
      (h : s.canc = .observed d)
      (hcond : (d || get_should_stop s.shared) = true) :
      Step ctx s { s with
        source_semaphore := s.source_semaphore + ctx.max_outstanding_requests
        canc := .finished
        cancelReleases := s.cancelReleases + 1 }
  /-- `canceler`: the condition does not hold, loop back to the sleep. -/
  | cancRepoll (s : PState) (d : Bool)
      (h : s.canc = .observed d)
      (hcond : (d || get_should_stop s.shared) = false) :
      Step ctx s { s with canc := .polling }
  /-- `updater`: reads the completion condition and breaks. -/
  | updFinish (s : PState)
      (h : s.upd = .polling)
      (hcond : (check_done s.shared || get_should_stop s.shared) = true) :
      Step ctx s { s with upd := .finished }
  /-- `updater`: the condition does not hold, loop back to the sleep. -/
  | updRepoll (s : PState)
      (h : s.upd = .polling)
      (hcond : (check_done s.shared || get_should_stop s.shared) = false) :
      Step ctx s { s with upd := .polling }

/-- States of a run of `async_main` on `ctx`. -/
def Reachable (ctx : Ctx) (s : PState) : Prop :=
  Relation.ReflTransGen (Step ctx) (initState ctx) s

/-- The state in which `asyncio.gather` of `async_main` returns: every
coroutine it awaited has finished. -/
def Completed (s : PState) : Prop :=
  (∃ cnt, s.prod = .finished cnt) ∧ s.canc = .finished ∧ s.upd = .finished ∧
    ∀ cs ∈ s.cons, cs = ConsState.exited

/-- `empty_full_queue`: pops `get_nowait()` until `QueueEmpty`, accumulating
in order. -/
def empty_full_queue : List ResponseDict → List ResponseDict
  | [] => []
  | r :: rest => r :: empty_full_queue rest

/-- The synchronous prelude of `async_sparp`: the `attempts` validation, then
the construction of the queues, semaphore and `SharedMemory` that
`async_main` runs on. -/
def async_sparp (ctx : Ctx) (attempts : Int) : Except String PState :=
  if attempts < 1 then Except.error "attempts should be at least 1"
  else Except.ok (initState ctx)

/-- `sparp`: `asyncio.run` of `async_sparp` with the same arguments. -/
def sparp (ctx : Ctx) (attempts : Int) : Except String PState :=
  async_sparp ctx attempts

/-- Whether a consumer holds a dequeued item it has not yet counted. -/
def isProcessing : ConsState → Bool
  | .calling _ => true
  | .appending _ => true
  | .updating _ => true
  | _ => false

/-- Whether a consumer has the collaborator call in flight. -/
def isCalling : ConsState → Bool
  | .calling _ => true
  | _ => false

/-- Whether a consumer has appended its outcome but not yet counted it. -/
def isUpdating : ConsState → Bool
  | .updating _ => true
  | _ => false

/-- Whether a consumer has left its loop. -/
def isExited : ConsState → Bool
  | .exited => true
  | _ => false

/-- Number of consumers with an uncounted dequeued item. -/
def procCount (cs : List ConsState) : Nat := cs.countP isProcessing

/-- Number of consumers with a collaborator call in flight. -/
def callingCount (cs : List ConsState) : Nat := cs.countP isCalling

/-- Number of consumers between the sink append and the counter update. -/
def updatingCount (cs : List ConsState) : Nat := cs.countP isUpdating

/-- Number of consumers that have left their loop. -/
def exitedCount (cs : List ConsState) : Nat := cs.countP isExited

/-- Number of items the producer has enqueued so far (its local `total`). -/
def emittedCount : ProdState → Nat
  | .running _ cnt => cnt
  | .finished cnt => cnt

/-- Items the producer has not yet enqueued. -/
def prodRemaining : ProdState → List Nat
  | .running rem _ => rem
  | .finished _ => []

/-- The stable drained condition: every item has been enqueued, dequeued and
counted, and `total` records the item count. -/
def Drained (ctx : Ctx) (s : PState) : Prop :=
  prodRemaining s.prod = [] ∧ s.source_queue = [] ∧ procCount s.cons = 0 ∧
    s.shared.total = (ctx.configs.length : Int) ∧
    s.shared.done = ctx.configs.length

/-! ### List helper lemmas -/

theorem getElem?_mem {l : List α} {i : Nat} {a : α} (h : l[i]? = some a) : a ∈ l := by
  obtain ⟨hl, rfl⟩ := List.getElem?_eq_some_iff.mp h
  exact List.getElem_mem hl

theorem getElem?_lt {l : List α} {i : Nat} {a : α} (h : l[i]? = some a) : i < l.length :=
  (List.getElem?_eq_some_iff.mp h).1

theorem countP_set_add (p : α → Bool) :
    ∀ (l : List α) (i : Nat) (a b : α), l[i]? = some a →
      (l.set i b).countP p + (if p a then 1 else 0) =
        l.countP p + (if p b then 1 else 0) := by
  intro l
  induction l with
  | nil => intro i a b h; simp at h
  | cons x xs ih =>
    intro i a b h
    cases i with
    | zero =>
      simp only [List.getElem?_cons_zero, Option.some.injEq] at h
      subst h
      simp [List.set, List.countP_cons]
      omega
    | succ j =>
      simp only [List.getElem?_cons_succ] at h
      have := ih j a b h
      simp [List.set, List.countP_cons]
      omega

theorem countP_pos_of_getElem? {l : List α} {i : Nat} {a : α} (p : α → Bool)
    (h : l[i]? = some a) (hp : p a = true) : 0 < l.countP p := by
  refine List.countP_pos_iff.mpr ⟨a, getElem?_mem h, hp⟩

/-- `empty_full_queue` drains the queue without loss or reordering. -/
theorem empty_full_queue_eq : ∀ l : List ResponseDict, empty_full_queue l = l := by
  intro l
  induction l with
  | nil => rfl
  | cons r rest ih => simp [empty_full_queue, ih]

/-! ### Pure facts about response building and classification -/

theorem classify_buildResponse_exn (ok : List Int) (m : String) :
    classify ok (buildResponse (.exn m)) = some .fail := by
  simp [classify, buildResponse]

theorem classify_buildResponse_ok (ok : List Int) (t : String) (st : Int)
    (j : JsonParse) (el : Rat) :
    classify ok (buildResponse (.ok t st j el)) =
      some (if st ∈ ok then .success else .fail) := by
  simp only [classify, buildResponse, Option.isSome_none, Bool.false_eq_true, if_false]
  split <;> simp_all

theorem classify_buildResponse_ne_none (ok : List Int) (res : RequestResult) :
    classify ok (buildResponse res) ≠ none := by
  cases res with
  | ok t st j el =>
    rw [classify_buildResponse_ok]
    simp
  | exn m =>
    rw [classify_buildResponse_exn]
    simp

/-! ### Field lemmas for the `SharedMemory` operations -/

@[simp] theorem set_total_done (m : SharedMemory) (t : Int) :
    (set_total m t).done = m.done := by
  unfold set_total; split <;> rfl

@[simp] theorem set_total_success (m : SharedMemory) (t : Int) :
    (set_total m t).success = m.success := by
  unfold set_total; split <;> rfl

@[simp] theorem set_total_fail (m : SharedMemory) (t : Int) :
    (set_total m t).fail = m.fail := by
  unfold set_total; split <;> rfl

@[simp] theorem set_total_should_stop (m : SharedMemory) (t : Int) :
    (set_total m t).should_stop = m.should_stop := by
  unfold set_total; split <;> rfl

theorem set_total_total (m : SharedMemory) (t : Int) :
    (set_total m t).total = if m.total = -1 then t else m.total := by
  unfold set_total; split <;> simp_all

theorem set_total_of_known (m : SharedMemory) (t : Int) (h : m.total ≠ -1) :
    set_total m t = m := by
  unfold set_total; simp [h]

/-- No transition resets the stop flag. -/
theorem stop_mono {ctx : Ctx} {s s' : PState} (st : Step ctx s s') :
    s.shared.should_stop = true → s'.shared.should_stop = true := by
  cases st <;>
    simp_all [set_should_stop, increment_success, increment_fail]

/-! ### countP bookkeeping for single-cell updates -/

theorem countP_set_eq (p : α → Bool) (l : List α) (i : Nat) (a b : α)
    (h : l[i]? = some a) (ha : p a = false) (hb : p b = false) :
    (l.set i b).countP p = l.countP p := by
  have := countP_set_add p l i a b h
  simp [ha, hb] at this
  exact this

theorem countP_set_same (p : α → Bool) (l : List α) (i : Nat) (a b : α)
    (h : l[i]? = some a) (ha : p a = true) (hb : p b = true) :
    (l.set i b).countP p = l.countP p := by
  have := countP_set_add p l i a b h
  simp [ha, hb] at this
  exact this

theorem countP_set_incr (p : α → Bool) (l : List α) (i : Nat) (a b : α)
    (h : l[i]? = some a) (ha : p a = false) (hb : p b = true) :
    (l.set i b).countP p = l.countP p + 1 := by
  have := countP_set_add p l i a b h
  simp [ha, hb] at this
  exact this

theorem countP_set_decr (p : α → Bool) (l : List α) (i : Nat) (a b : α)
    (h : l[i]? = some a) (ha : p a = true) (hb : p b = false) :
    (l.set i b).countP p + 1 = l.countP p := by
  have := countP_set_add p l i a b h
  simp [ha, hb] at this
  exact this

/-! ### Stability of the drained condition -/

/-- Once every item is enqueued, dequeued and counted, no transition disturbs
that situation: the producer has nothing left to emit, the queue stays empty,
and no consumer holds an uncounted item. -/
theorem drained_step {ctx : Ctx} {s s' : PState} (hd : Drained ctx s)
    (st : Step ctx s s') : Drained ctx s' := by
  obtain ⟨h1, h2, h3, h4, h5⟩ := hd
  cases st with
  | prodEmit c rest cnt h =>
      simp_all [prodRemaining]
  | prodFinish cnt h =>
      have hne : s.shared.total ≠ -1 := by rw [h4]; omega
      refine ⟨by simp [prodRemaining], h2, ?_, ?_, ?_⟩
      · simpa [procCount] using h3
      · simpa [set_total_of_known _ _ hne] using h4
      · simpa using h5
  | consDequeue i c rest hc hs hq =>
      rw [h2] at hq
      exact absurd hq (by simp)
  | consExit i hc hs hq =>
      refine ⟨h1, h2, ?_, h4, h5⟩
      have hcp := countP_set_eq isProcessing s.cons i _ ConsState.exited hc
        (by simp [isProcessing]) (by simp [isProcessing])
      simpa [procCount, hcp] using h3
  | consCallReturn i c hc =>
      have : 0 < procCount s.cons :=
        countP_pos_of_getElem? isProcessing hc (by simp [isProcessing])
      omega
  | consAppend i r hc =>
      have : 0 < procCount s.cons :=
        countP_pos_of_getElem? isProcessing hc (by simp [isProcessing])
      omega
  | consSuccess i r hc hcl =>
      have : 0 < procCount s.cons :=
        countP_pos_of_getElem? isProcessing hc (by simp [isProcessing])
      omega
  | consFailStop i r hc hcl hf =>
      have : 0 < procCount s.cons :=
        countP_pos_of_getElem? isProcessing hc (by simp [isProcessing])
      omega
  | consFailCont i r hc hcl hf =>
      have : 0 < procCount s.cons :=
        countP_pos_of_getElem? isProcessing hc (by simp [isProcessing])
      omega
  | consSetStop i hc =>
      refine ⟨h1, h2, ?_, h4, h5⟩
      have hcp := countP_set_eq isProcessing s.cons i _ ConsState.idle hc
        (by simp [isProcessing]) (by simp [isProcessing])
      simpa [procCount, set_should_stop, hcp] using h3
  | cancObserve h =>
      exact ⟨h1, h2, h3, h4, h5⟩
  | cancRelease d h hcond =>
      exact ⟨h1, h2, h3, h4, h5⟩
  | cancRepoll d h hcond =>
      exact ⟨h1, h2, h3, h4, h5⟩
  | updFinish h hcond =>
      exact ⟨h1, h2, h3, h4, h5⟩
  | updRepoll h hcond =>
      exact ⟨h1, h2, h3, h4, h5⟩

/-! ### The inductive invariant -/

/-- All reachable-state facts needed by the claims, proved together by
induction over `Step`. -/
structure Inv (ctx : Ctx) (s : PState) : Prop where
  counters : s.shared.done = s.shared.success + s.shared.fail
  consLen : s.cons.length = ctx.max_outstanding_requests
  prodRun : ∀ rem cnt, s.prod = .running rem cnt →
      cnt + rem.length = ctx.configs.length
  prodFin : ∀ cnt, s.prod = .finished cnt → cnt = ctx.configs.length
  semEq : s.source_semaphore + exitedCount s.cons =
      ctx.max_outstanding_requests * s.cancelReleases + s.source_queue.length
  flowEq : emittedCount s.prod =
      s.source_queue.length + procCount s.cons + s.shared.done
  totalEq : s.shared.total = -1 ∨ s.shared.total = (ctx.configs.length : Int)
  totalUnsized : ctx.sized = false →
      s.shared.total = -1 ∨ ∃ cnt, s.prod = ProdState.finished cnt
  sinkEq : s.sink_queue.length = s.shared.done + updatingCount s.cons
  obsDrained : s.canc = .observed true → Drained ctx s
  finDrained : s.canc = .finished → s.shared.should_stop = true ∨ Drained ctx s
  relLe : s.cancelReleases ≤ 1
  relIff : s.cancelReleases = 1 ↔ s.canc = .finished
  payload : ∀ r, (ConsState.appending r ∈ s.cons ∨ ConsState.updating r ∈ s.cons) →
      ∃ res, r = buildResponse res

theorem inv_init (ctx : Ctx) : Inv ctx (initState ctx) := by
  refine ⟨rfl, by simp [initState], ?_, ?_, ?_, ?_, ?_, ?_, ?_, ?_, ?_, ?_, ?_, ?_⟩
  · intro rem cnt h
    simp only [initState] at h
    cases h
    simp
  · intro cnt h
    simp [initState] at h
  · simp [initState, exitedCount, List.countP_replicate, isExited]
  · simp [initState, emittedCount, procCount, List.countP_replicate, isProcessing]
  · simp only [initState]
    split
    · right; rfl
    · left; rfl
  · intro h
    simp [initState, h]
  · simp [initState, updatingCount, List.countP_replicate, isUpdating]
  · intro h
    simp [initState] at h
  · intro h
    simp [initState] at h
  · simp [initState]
  · simp [initState]
  · intro r hr
    rcases hr with hr | hr <;>
      (simp only [initState] at hr; have := List.eq_of_mem_replicate hr; simp at this)

/-- The producer's emitted count plus its remaining items is the input size. -/
theorem emitted_add_rem {ctx : Ctx} {s : PState} (hI : Inv ctx s) :
    emittedCount s.prod + (prodRemaining s.prod).length = ctx.configs.length := by
  cases h : s.prod with
  | running rem cnt =>
    have := hI.prodRun rem cnt h
    simpa [emittedCount, prodRemaining] using this
  | finished cnt =>
    have := hI.prodFin cnt h
    simp [emittedCount, prodRemaining, this]

/-- Preservation: every transition of `async_main` maintains `Inv`. -/
theorem inv_step {ctx : Ctx} {s s' : PState} (hI : Inv ctx s) (st : Step ctx s s') :
    Inv ctx s' := by
  have hds : Drained ctx s → Drained ctx s' := fun hd => drained_step hd st
  have hsm : s.shared.should_stop = true → s'.shared.should_stop = true := stop_mono st
  obtain ⟨hcnt, hlen, hpr, hpf, hsem, hflow, htot, htu, hsink, hod, hfd, hrl, hri, hpay⟩ := hI
  cases st with
  | prodEmit c rest cnt h =>
    refine ⟨hcnt, hlen, ?_, ?_, ?_, ?_, htot, ?_, hsink,
      fun hh => hds (hod hh), fun hh => (hfd hh).imp hsm hds, hrl, hri, hpay⟩
    · intro rem' cnt' h'
      cases h'
      have h0 := hpr _ _ h
      simp only [List.length_cons] at h0
      omega
    · intro cnt' h'
      exact absurd h' (by simp)
    · simp [exitedCount] at hsem ⊢
      omega
    · have h0 := hpr _ _ h
      simp only [emittedCount] at hflow ⊢
      rw [h] at hflow
      simp only [emittedCount] at hflow
      simp
      omega
    · intro hf
      rcases htu hf with h1 | ⟨cnt', h2⟩
      · exact Or.inl h1
      · rw [h] at h2
        exact absurd h2 (by simp)
  | prodFinish cnt h =>
    refine ⟨by simpa using hcnt, hlen, ?_, ?_, hsem, ?_, ?_, ?_, by simpa using hsink,
      fun hh => hds (hod hh), ?_, hrl, hri, hpay⟩
    · intro rem' cnt' h'
      exact absurd h' (by simp)
    · intro cnt' h'
      cases h'
      have h0 := hpr [] cnt h
      simpa using h0
    · have h0 := hflow
      rw [h] at h0
      simp only [emittedCount] at h0 ⊢
      simpa using h0
    · by_cases hm : s.shared.total = -1
      · right
        have h0 := hpr [] cnt h
        simp only [List.length_nil, Nat.add_zero] at h0
        simp [set_total_total, hm, h0]
      · rw [set_total_total, if_neg hm]
        exact htot
    · intro hf
      exact Or.inr ⟨cnt, rfl⟩
    · intro hh
      exact ((hfd hh).imp hsm hds)
  | consDequeue i c rest hc hs hq =>
    have eP := countP_set_incr isProcessing s.cons i _ (ConsState.calling c) hc
      (by simp [isProcessing]) (by simp [isProcessing])
    have eX := countP_set_eq isExited s.cons i _ (ConsState.calling c) hc
      (by simp [isExited]) (by simp [isExited])
    have eU := countP_set_eq isUpdating s.cons i _ (ConsState.calling c) hc
      (by simp [isUpdating]) (by simp [isUpdating])
    refine ⟨hcnt, by simpa using hlen, hpr, hpf, ?_, ?_, htot, htu, ?_,
      fun hh => hds (hod hh), fun hh => (hfd hh).imp hsm hds, hrl, hri, ?_⟩
    · simp only [exitedCount] at hsem ⊢
      rw [hq] at hsem
      simp only [List.length_cons] at hsem
      simp [eX]
      omega
    · simp only [procCount] at hflow ⊢
      rw [hq] at hflow
      simp only [List.length_cons] at hflow
      simp [eP]
      omega
    · simp only [updatingCount] at hsink ⊢
      simp [eU]
      omega
    · intro r' hr
      rcases hr with hr | hr <;>
        rcases List.mem_or_eq_of_mem_set hr with hm | hm
      · exact hpay r' (Or.inl hm)
      · simp at hm
      · exact hpay r' (Or.inr hm)
      · simp at hm
  | consExit i hc hs hq =>
    have eP := countP_set_eq isProcessing s.cons i _ ConsState.exited hc
      (by simp [isProcessing]) (by simp [isProcessing])
    have eX := countP_set_incr isExited s.cons i _ ConsState.exited hc
      (by simp [isExited]) (by simp [isExited])
    have eU := countP_set_eq isUpdating s.cons i _ ConsState.exited hc
      (by simp [isUpdating]) (by simp [isUpdating])
    refine ⟨hcnt, by simpa using hlen, hpr, hpf, ?_, ?_, htot, htu, ?_,
      fun hh => hds (hod hh), fun hh => (hfd hh).imp hsm hds, hrl, hri, ?_⟩
    · simp only [exitedCount] at hsem ⊢
      simp [eX]
      omega
    · simp only [procCount] at hflow ⊢
      simp [eP]
      omega
    · simp only [updatingCount] at hsink ⊢
      simp [eU]
      omega
    · intro r' hr
      rcases hr with hr | hr <;>
        rcases List.mem_or_eq_of_mem_set hr with hm | hm
      · exact hpay r' (Or.inl hm)
      · simp at hm
      · exact hpay r' (Or.inr hm)
      · simp at hm
  | consCallReturn i c hc =>
    have eP := countP_set_same isProcessing s.cons i _
      (ConsState.appending (buildResponse (ctx.env c))) hc
      (by simp [isProcessing]) (by simp [isProcessing])
    have eX := countP_set_eq isExited s.cons i _
      (ConsState.appending (buildResponse (ctx.env c))) hc
      (by simp [isExited]) (by simp [isExited])
    have eU := countP_set_eq isUpdating s.cons i _
      (ConsState.appending (buildResponse (ctx.env c))) hc
      (by simp [isUpdating]) (by simp [isUpdating])
    refine ⟨hcnt, by simpa using hlen, hpr, hpf, ?_, ?_, htot, htu, ?_,
      fun hh => hds (hod hh), fun hh => (hfd hh).imp hsm hds, hrl, hri, ?_⟩
    · simp only [exitedCount] at hsem ⊢
      simp [eX]
      omega
    · simp only [procCount] at hflow ⊢
      simp [eP]
      omega
    · simp only [updatingCount] at hsink ⊢
      simp [eU]
      omega
    · intro r hr
      rcases hr with hr | hr <;>
        rcases List.mem_or_eq_of_mem_set hr with hm | hm
      · exact hpay r (Or.inl hm)
      · exact ⟨ctx.env c, by injection hm⟩
      · exact hpay r (Or.inr hm)
      · simp at hm
  | consAppend i r hc =>
    have eP := countP_set_same isProcessing s.cons i _ (ConsState.updating r) hc
      (by simp [isProcessing]) (by simp [isProcessing])
    have eX := countP_set_eq isExited s.cons i _ (ConsState.updating r) hc
      (by simp [isExited]) (by simp [isExited])
    have eU := countP_set_incr isUpdating s.cons i _ (ConsState.updating r) hc
      (by simp [isUpdating]) (by simp [isUpdating])
    refine ⟨hcnt, by simpa using hlen, hpr, hpf, ?_, ?_, htot, htu, ?_,
      fun hh => hds (hod hh), fun hh => (hfd hh).imp hsm hds, hrl, hri, ?_⟩
    · simp only [exitedCount] at hsem ⊢
      simp [eX]
      omega
    · simp only [procCount] at hflow ⊢
      simp [eP]
      omega
    · simp only [updatingCount] at hsink ⊢
      simp [eU]
      omega
    · intro r' hr
      rcases hr with hr | hr <;>
        rcases List.mem_or_eq_of_mem_set hr with hm | hm
      · exact hpay r' (Or.inl hm)
      · simp at hm
      · exact hpay r' (Or.inr hm)
      · have : r' = r := by injection hm
        subst this
        exact hpay r' (Or.inl (getElem?_mem hc))
  | consSuccess i r hc hcl =>
    have eP := countP_set_decr isProcessing s.cons i _ ConsState.idle hc
      (by simp [isProcessing]) (by simp [isProcessing])
    have eX := countP_set_eq isExited s.cons i _ ConsState.idle hc
      (by simp [isExited]) (by simp [isExited])
    have eU := countP_set_decr isUpdating s.cons i _ ConsState.idle hc
      (by simp [isUpdating]) (by simp [isUpdating])
    refine ⟨?_, by simpa using hlen, hpr, hpf, ?_, ?_, ?_, htu, ?_,
      fun hh => hds (hod hh), fun hh => (hfd hh).imp hsm hds, hrl, hri, ?_⟩
    · simp [increment_success]
      omega
    · simp only [exitedCount] at hsem ⊢
      simp [eX, increment_success]
      omega
    · simp only [procCount] at hflow ⊢
      simp [increment_success]
      omega
    · simpa [increment_success] using htot
    · simp only [updatingCount] at hsink ⊢
      simp [increment_success]
      omega
    · intro r' hr
      rcases hr with hr | hr <;>
        rcases List.mem_or_eq_of_mem_set hr with hm | hm
      · exact hpay r' (Or.inl hm)
      · simp at hm
      · exact hpay r' (Or.inr hm)
      · simp at hm
  | consFailStop i r hc hcl hf =>
    have eP := countP_set_decr isProcessing s.cons i _ ConsState.stopping hc
      (by simp [isProcessing]) (by simp [isProcessing])
    have eX := countP_set_eq isExited s.cons i _ ConsState.stopping hc
      (by simp [isExited]) (by simp [isExited])
    have eU := countP_set_decr isUpdating s.cons i _ ConsState.stopping hc
      (by simp [isUpdating]) (by simp [isUpdating])
    refine ⟨?_, by simpa using hlen, hpr, hpf, ?_, ?_, ?_, htu, ?_,
      fun hh => hds (hod hh), fun hh => (hfd hh).imp hsm hds, hrl, hri, ?_⟩
    · simp [increment_fail]
      omega
    · simp only [exitedCount] at hsem ⊢
      simp [eX, increment_fail]
      omega
    · simp only [procCount] at hflow ⊢
      simp [increment_fail]
      omega
    · simpa [increment_fail] using htot
    · simp only [updatingCount] at hsink ⊢
      simp [increment_fail]
      omega
    · intro r' hr
      rcases hr with hr | hr <;>
        rcases List.mem_or_eq_of_mem_set hr with hm | hm
      · exact hpay r' (Or.inl hm)
      · simp at hm
      · exact hpay r' (Or.inr hm)
      · simp at hm
  | consFailCont i r hc hcl hf =>
    have eP := countP_set_decr isProcessing s.cons i _ ConsState.idle hc
      (by simp [isProcessing]) (by simp [isProcessing])
    have eX := countP_set_eq isExited s.cons i _ ConsState.idle hc
      (by simp [isExited]) (by simp [isExited])
    have eU := countP_set_decr isUpdating s.cons i _ ConsState.idle hc
      (by simp [isUpdating]) (by simp [isUpdating])
    refine ⟨?_, by simpa using hlen, hpr, hpf, ?_, ?_, ?_, htu, ?_,
      fun hh => hds (hod hh), fun hh => (hfd hh).imp hsm hds, hrl, hri, ?_⟩
    · simp [increment_fail]
      omega
    · simp only [exitedCount] at hsem ⊢
      simp [eX, increment_fail]
      omega
    · simp only [procCount] at hflow ⊢
      simp [increment_fail]
      omega
    · simpa [increment_fail] using htot
    · simp only [updatingCount] at hsink ⊢
      simp [increment_fail]
      omega
    · intro r' hr
      rcases hr with hr | hr <;>
        rcases List.mem_or_eq_of_mem_set hr with hm | hm
      · exact hpay r' (Or.inl hm)
      · simp at hm
      · exact hpay r' (Or.inr hm)
      · simp at hm
  | consSetStop i hc =>
    have eP := countP_set_eq isProcessing s.cons i _ ConsState.idle hc
      (by simp [isProcessing]) (by simp [isProcessing])
    have eX := countP_set_eq isExited s.cons i _ ConsState.idle hc
      (by simp [isExited]) (by simp [isExited])
    have eU := countP_set_eq isUpdating s.cons i _ ConsState.idle hc
      (by simp [isUpdating]) (by simp [isUpdating])
    refine ⟨?_, by simpa using hlen, hpr, hpf, ?_, ?_, ?_, htu, ?_,
      fun hh => hds (hod hh), ?_, hrl, hri, ?_⟩
    · simpa [set_should_stop] using hcnt
    · simp only [exitedCount] at hsem ⊢
      simp [eX, set_should_stop]
      omega
    · simp only [procCount] at hflow ⊢
      simp [eP, set_should_stop]
      omega
    · simpa [set_should_stop] using htot
    · simp only [updatingCount] at hsink ⊢
      simp [eU, set_should_stop]
      omega
    · intro hh
      exact Or.inl (by simp [set_should_stop])
    · intro r' hr
      rcases hr with hr | hr <;>
        rcases List.mem_or_eq_of_mem_set hr with hm | hm
      · exact hpay r' (Or.inl hm)
      · simp at hm
      · exact hpay r' (Or.inr hm)
      · simp at hm
  | cancObserve h =>
    refine ⟨hcnt, hlen, hpr, hpf, hsem, hflow, htot, htu, hsink, ?_, ?_, hrl, ?_, hpay⟩
    · intro hh
      simp only [CancState.observed.injEq] at hh
      have hcd : s.shared.total = (s.shared.done : Int) := by
        have := of_decide_eq_true hh
        exact this
      have hN : s.shared.done = ctx.configs.length := by
        rcases htot with hm | hm
        · rw [hm] at hcd
          omega
        · rw [hm] at hcd
          omega
      have hsum := emitted_add_rem
        ⟨hcnt, hlen, hpr, hpf, hsem, hflow, htot, htu, hsink, hod, hfd, hrl, hri, hpay⟩
      have hq0 : s.source_queue.length = 0 ∧ procCount s.cons = 0 ∧
          (prodRemaining s.prod).length = 0 := by
        omega
      refine hds ⟨List.length_eq_zero.mp hq0.2.2, List.length_eq_zero.mp hq0.1,
        hq0.2.1, ?_, hN⟩
      rcases htot with hm | hm
      · rw [hm] at hcd
        omega
      · exact hm
    · intro hh
      exact absurd hh (by simp)
    · constructor
      · intro hh
        have := hri.mp hh
        rw [h] at this
        exact absurd this (by simp)
      · intro hh
        exact absurd hh (by simp)
  | cancRelease d h hcond =>
    have hc0 : s.cancelReleases = 0 := by
      rcases Nat.eq_or_lt_of_le hrl with h1 | h1
      · exfalso
        have := hri.mp h1
        rw [h] at this
        exact absurd this (by simp)
      · omega
    refine ⟨hcnt, hlen, hpr, hpf, ?_, hflow, htot, htu, hsink, ?_, ?_, ?_, ?_, hpay⟩
    · simp only [exitedCount] at hsem ⊢
      simp [hc0] at hsem ⊢
      omega
    · intro hh
      exact absurd hh (by simp)
    · intro hh
      rcases Bool.or_eq_true_iff.mp hcond with hd | hstop
      · subst hd
        exact Or.inr (hds (hod h))
      · exact Or.inl (hsm hstop)
    · simp [hc0]
    · simp [hc0]
  | cancRepoll d h hcond =>
    have hc0 : s.cancelReleases = 0 := by
      rcases Nat.eq_or_lt_of_le hrl with h1 | h1
      · exfalso
        have := hri.mp h1
        rw [h] at this
        exact absurd this (by simp)
      · omega
    refine ⟨hcnt, hlen, hpr, hpf, hsem, hflow, htot, htu, hsink, ?_, ?_, hrl, ?_, hpay⟩
    · intro hh
      exact absurd hh (by simp)
    · intro hh
      exact absurd hh (by simp)
    · simp [hc0]
  | updFinish h hcond =>
    exact ⟨hcnt, hlen, hpr, hpf, hsem, hflow, htot, htu, hsink,
      fun hh => hds (hod hh), fun hh => (hfd hh).imp hsm hds, hrl, hri, hpay⟩
  | updRepoll h hcond =>
    exact ⟨hcnt, hlen, hpr, hpf, hsem, hflow, htot, htu, hsink,
      fun hh => hds (hod hh), fun hh => (hfd hh).imp hsm hds, hrl, hri, hpay⟩

/-- Every reachable state of a run satisfies the invariant. -/
theorem reachable_inv {ctx : Ctx} {s : PState} (h : Reachable ctx s) : Inv ctx s := by
  induction h with
  | refl => exact inv_init ctx
  | tail _ st ih => exact inv_step ih st

/-! ### Timed model of the producer

The rate-limit claim is about real time, which the interleaving semantics
abstracts away, so the `producer` loop is additionally embedded with an
explicit event-loop clock.  The only timing assumption is the documented
contract of `asyncio.sleep(d)`: the coroutine resumes no earlier than `d`
after it suspended. -/

/-- Timed state of the `producer` coroutine alone: its remaining items, the
queue and semaphore it drives, the event-loop clock `now`, and the timestamp
of each admission (enqueue plus permit release) performed so far. -/
structure TProd where
  remaining : List Nat
  source_queue : List Nat
  source_semaphore : Nat
  now : Rat
  admitted : List Rat
deriving DecidableEq

/-- One iteration of the `producer` loop: `await source_queue.put(item)` and
`source_semaphore.release()` happen at time `s.now`, then
`await asyncio.sleep(time_between_requests)` resumes the coroutine at some
time `resume` at least `time_between_requests` later. -/
inductive TStep (time_between_requests : Rat) : TProd → TProd → Prop where
  | emit (s : TProd) (c : Nat) (rest : List Nat) (resume : Rat)
      (h : s.remaining = c :: rest)
      (ht : s.now + time_between_requests ≤ resume) :
      TStep time_between_requests s
        { remaining := rest
          source_queue := s.source_queue ++ [c]
          source_semaphore := s.source_semaphore + 1
          now := resume
          admitted := s.admitted ++ [s.now] }

/-- Timed producer state at the start of the loop. -/
def tInit (items : List Nat) (start : Rat) : TProd :=
  { remaining := items, source_queue := [], source_semaphore := 0
    now := start, admitted := [] }

/-- Timed-producer states reachable in a run over `items` starting at
`start`. -/
def TReach (d : Rat) (items : List Nat) (start : Rat) (s : TProd) : Prop :=
  Relation.ReflTransGen (TStep d) (tInit items start) s

/-- Consecutive entries of `l` are at least `d` apart. -/
def Spaced (d : Rat) (l : List Rat) : Prop :=
  ∀ i < l.length - 1, l.getD i 0 + d ≤ l.getD (i + 1) 0

theorem chain'_getD {R : Rat → Rat → Prop} :
    ∀ l : List Rat, List.Chain' R l → ∀ i, i + 1 < l.length →
      R (l.getD i 0) (l.getD (i + 1) 0) := by
  intro l
  induction l with
  | nil =>
    intro h i hi
    simp at hi
  | cons a t ih =>
    intro h i hi
    cases t with
    | nil => simp at hi
    | cons b t2 =>
      rw [List.chain'_cons] at h
      cases i with
      | zero => simpa using h.1
      | succ j =>
        have := ih h.2 j (by simpa using hi)
        simpa using this

/-- In every timed producer run, the past admission timestamps followed by the
current clock form a `d`-spaced chain. -/
theorem treach_chain {d : Rat} {items : List Nat} {start : Rat} {s : TProd}
    (h : TReach d items start s) :
    List.Chain' (fun a b => a + d ≤ b) (s.admitted ++ [s.now]) := by
  induction h with
  | refl => simp [tInit]
  | tail _ st ih =>
    cases st with
    | emit c rest resume hrem ht =>
      refine List.chain'_append.mpr ⟨ih, List.chain'_singleton _, ?_⟩
      intro x hx y hy
      simp [List.getLast?_concat] at hx
      simp at hy
      subst hx
      subst hy
      exact ht

/-! ### Concrete runs

Run A: one task, pool size 1, the collaborator answers 200; the run completes
normally.  Run B: two tasks, pool size 1, `stop_on_first_fail = true`, the
collaborator raises; the bulk release wakes the lone consumer while the
producer is still sleeping between items, so the consumer exits with the
second item still unenqueued.  Run C: one task from a source without `__len__`
(`total` starts unknown). -/

def ctxA : Ctx :=
  { configs := [5], max_outstanding_requests := 1
    env := fun _ => .ok "body" 200 (.ok "val") 0
    ok_status_codes := [200], stop_on_first_fail := false, sized := true }

/-- The response dict of run A's successful call. -/
def respA : ResponseDict := buildResponse (.ok "body" 200 (.ok "val") 0)

def shA0 : SharedMemory :=
  { done := 0, success := 0, fail := 0, total := 1, should_stop := false }

def shA1 : SharedMemory :=
  { done := 1, success := 1, fail := 0, total := 1, should_stop := false }

def a0 : PState :=
  { shared := shA0, source_queue := [], source_semaphore := 0, sink_queue := []
    prod := .running [5] 0, cons := [.idle], canc := .polling, upd := .polling
    cancelReleases := 0 }

def a1 : PState := { a0 with source_queue := [5], source_semaphore := 1, prod := .running [] 1 }

def a2 : PState := { a1 with prod := .finished 1 }

def a3 : PState :=
  { a2 with source_queue := [], source_semaphore := 0, cons := [.calling 5] }

def a4 : PState := { a3 with cons := [.appending respA] }

def a5 : PState := { a4 with sink_queue := [respA], cons := [.updating respA] }

def a6 : PState := { a5 with shared := shA1, cons := [.idle] }

def a7 : PState := { a6 with canc := .observed true }

def a8 : PState := { a7 with source_semaphore := 1, canc := .finished, cancelReleases := 1 }

def a9 : PState := { a8 with source_semaphore := 0, cons := [.exited] }

def a10 : PState := { a9 with upd := .finished }

theorem reach_a0 : Reachable ctxA a0 := Relation.ReflTransGen.refl

theorem step_a0_a1 : Step ctxA a0 a1 := Step.prodEmit a0 5 [] 0 rfl

theorem step_a1_a2 : Step ctxA a1 a2 := Step.prodFinish a1 1 rfl

theorem step_a2_a3 : Step ctxA a2 a3 := Step.consDequeue a2 0 5 [] rfl (by decide) rfl

theorem step_a3_a4 : Step ctxA a3 a4 := Step.consCallReturn a3 0 5 rfl

theorem step_a4_a5 : Step ctxA a4 a5 := Step.consAppend a4 0 respA rfl

theorem step_a5_a6 : Step ctxA a5 a6 := Step.consSuccess a5 0 respA rfl (by decide)

theorem step_a6_a7 : Step ctxA a6 a7 := Step.cancObserve a6 rfl

theorem step_a7_a8 : Step ctxA a7 a8 := Step.cancRelease a7 true rfl rfl

theorem step_a8_a9 : Step ctxA a8 a9 := Step.consExit a8 0 rfl (by decide) rfl

theorem step_a9_a10 : Step ctxA a9 a10 := Step.updFinish a9 rfl (by decide)

theorem reach_a2 : Reachable ctxA a2 :=
  (reach_a0.tail step_a0_a1).tail step_a1_a2

theorem reach_a3 : Reachable ctxA a3 := reach_a2.tail step_a2_a3

theorem reach_a5 : Reachable ctxA a5 :=
  (reach_a3.tail step_a3_a4).tail step_a4_a5

theorem reach_a7 : Reachable ctxA a7 :=
  (reach_a5.tail step_a5_a6).tail step_a6_a7

theorem reach_a10 : Reachable ctxA a10 :=
  ((reach_a7.tail step_a7_a8).tail step_a8_a9).tail step_a9_a10

theorem completed_a10 : Completed a10 := ⟨⟨1, rfl⟩, rfl, rfl, by decide⟩

def ctxB : Ctx :=
  { configs := [7, 8], max_outstanding_requests := 1
    env := fun _ => .exn "boom"
    ok_status_codes := [200], stop_on_first_fail := true, sized := true }

/-- The response dict of run B's raised call. -/
def respB : ResponseDict := buildResponse (.exn "boom")

def shB0 : SharedMemory :=
  { done := 0, success := 0, fail := 0, total := 2, should_stop := false }

def shB1 : SharedMemory :=
  { done := 1, success := 0, fail := 1, total := 2, should_stop := false }

def shB2 : SharedMemory :=
  { done := 1, success := 0, fail := 1, total := 2, should_stop := true }

def b0 : PState :=
  { shared := shB0, source_queue := [], source_semaphore := 0, sink_queue := []
    prod := .running [7, 8] 0, cons := [.idle], canc := .polling, upd := .polling
    cancelReleases := 0 }

def b1 : PState := { b0 with source_queue := [7], source_semaphore := 1, prod := .running [8] 1 }

def b2 : PState := { b1 with source_queue := [], source_semaphore := 0, cons := [.calling 7] }

def b3 : PState := { b2 with cons := [.appending respB] }

def b4 : PState := { b3 with sink_queue := [respB], cons := [.updating respB] }

def b5 : PState := { b4 with shared := shB1, cons := [.stopping] }

def b6 : PState := { b5 with shared := shB2, cons := [.idle] }

def b7 : PState := { b6 with canc := .observed false }

def b8 : PState := { b7 with source_semaphore := 1, canc := .finished, cancelReleases := 1 }

def b9 : PState := { b8 with source_semaphore := 0, cons := [.exited] }

def b10 : PState := { b9 with source_queue := [8], source_semaphore := 1, prod := .running [] 2 }

def b11 : PState := { b10 with prod := .finished 2 }

def b12 : PState := { b11 with upd := .finished }

theorem reach_b0 : Reachable ctxB b0 := Relation.ReflTransGen.refl

theorem step_b0_b1 : Step ctxB b0 b1 := Step.prodEmit b0 7 [8] 0 rfl

theorem step_b1_b2 : Step ctxB b1 b2 := Step.consDequeue b1 0 7 [] rfl (by decide) rfl

theorem step_b2_b3 : Step ctxB b2 b3 := Step.consCallReturn b2 0 7 rfl

theorem step_b3_b4 : Step ctxB b3 b4 := Step.consAppend b3 0 respB rfl

theorem step_b4_b5 : Step ctxB b4 b5 := Step.consFailStop b4 0 respB rfl (by decide) rfl

theorem step_b5_b6 : Step ctxB b5 b6 := Step.consSetStop b5 0 rfl

theorem step_b6_b7 : Step ctxB b6 b7 := Step.cancObserve b6 rfl

theorem step_b7_b8 : Step ctxB b7 b8 := Step.cancRelease b7 false rfl rfl

theorem step_b8_b9 : Step ctxB b8 b9 := Step.consExit b8 0 rfl (by decide) rfl

theorem step_b9_b10 : Step ctxB b9 b10 := Step.prodEmit b9 8 [] 1 rfl

theorem step_b10_b11 : Step ctxB b10 b11 := Step.prodFinish b10 2 rfl

theorem step_b11_b12 : Step ctxB b11 b12 := Step.updFinish b11 rfl (by decide)

theorem reach_b4 : Reachable ctxB b4 :=
  (((reach_b0.tail step_b0_b1).tail step_b1_b2).tail step_b2_b3).tail step_b3_b4

theorem reach_b5 : Reachable ctxB b5 := reach_b4.tail step_b4_b5

theorem reach_b12 : Reachable ctxB b12 :=
  (((((((reach_b5.tail step_b5_b6).tail step_b6_b7).tail step_b7_b8).tail
    step_b8_b9).tail step_b9_b10).tail step_b10_b11).tail step_b11_b12)

theorem completed_b12 : Completed b12 := ⟨⟨2, rfl⟩, rfl, rfl, by decide⟩

def ctxC : Ctx :=
  { configs := [3], max_outstanding_requests := 1
    env := fun _ => .ok "body" 200 (.ok "val") 0
    ok_status_codes := [200], stop_on_first_fail := false, sized := false }

def shC0 : SharedMemory :=
  { done := 0, success := 0, fail := 0, total := -1, should_stop := false }

def shC1 : SharedMemory :=
  { done := 0, success := 0, fail := 0, total := 1, should_stop := false }

def c0 : PState :=
  { shared := shC0, source_queue := [], source_semaphore := 0, sink_queue := []
    prod := .running [3] 0, cons := [.idle], canc := .polling, upd := .polling
    cancelReleases := 0 }

def c1 : PState := { c0 with source_queue := [3], source_semaphore := 1, prod := .running [] 1 }

def c2 : PState := { c1 with shared := shC1, prod := .finished 1 }

theorem reach_c0 : Reachable ctxC c0 := Relation.ReflTransGen.refl

theorem step_c0_c1 : Step ctxC c0 c1 := Step.prodEmit c0 3 [] 0 rfl

theorem step_c1_c2 : Step ctxC c1 c2 := Step.prodFinish c1 1 rfl

theorem reach_c1 : Reachable ctxC c1 := reach_c0.tail step_c0_c1

/-- A state with a parse-failure response about to be appended, used to
instantiate the parse-failure claim. -/
def dState : PState :=
  { shared := shA0, source_queue := [], source_semaphore := 0, sink_queue := []
    prod := .running [] 1
    cons := [.appending (buildResponse (.ok "b" 200 (.error "bad") 0))]
    canc := .polling, upd := .polling, cancelReleases := 0 }

/-- Timed producer run: two items, spacing 1, starting at time 0. -/
def tRun : TProd :=
  { remaining := [], source_queue := [1, 2], source_semaphore := 2
    now := 2, admitted := [0, 1] }

theorem treach_tRun : TReach 1 [1, 2] 0 tRun := by
  refine Relation.ReflTransGen.head (TStep.emit _ 1 [2] 1 rfl (by norm_num [tInit])) ?_
  refine Relation.ReflTransGen.head (TStep.emit _ 2 [] 2 rfl (by norm_num)) ?_
  exact Relation.ReflTransGen.refl

/-! ### Claims -/

/-- C1 counterexample: in a `stop_on_first_fail` run the bulk release can wake
the lone consumer while the producer still sleeps between items; the consumer
observes an empty queue and exits, the producer later enqueues the second item
with no consumer left, and `asyncio.gather` returns with `done = 1` but
`total = 2`.  So `done == total` does not hold at every completion. -/
theorem counter_consistency_counterexample :
    Reachable ctxB b12 ∧ Completed b12 ∧
      b12.shared.total ≠ (b12.shared.done : Int) :=
  ⟨reach_b12, completed_b12, by decide⟩

/-- C1 (amended): in every reachable state `done = success + fail`; at
completion `done` equals the length of the drained outcome collection; and at
a completion where the stop flag was never raised, `done` equals `total`. -/
theorem counter_consistency (ctx : Ctx) (s : PState) (h : Reachable ctx s) :
    s.shared.done = s.shared.success + s.shared.fail ∧
      (Completed s → (empty_full_queue s.sink_queue).length = s.shared.done) ∧
      (Completed s → s.shared.should_stop = false →
        s.shared.total = (s.shared.done : Int)) := by
  have hI := reachable_inv h
  refine ⟨hI.counters, ?_, ?_⟩
  · intro hC
    have hU : updatingCount s.cons = 0 := by
      simp only [updatingCount]
      rw [List.countP_eq_zero]
      intro a ha
      rw [hC.2.2.2 a ha]
      simp [isUpdating]
    rw [empty_full_queue_eq, hI.sinkEq, hU]
    omega
  · intro hC hstop
    rcases hI.finDrained hC.2.1 with h1 | h2
    · rw [hstop] at h1
      simp at h1
    · obtain ⟨_, _, _, ht, hdn⟩ := h2
      rw [ht, hdn]

/-- C1 witness: the completed no-failure run A has `done = success + fail`,
one drained outcome, and `done = total`. -/
theorem counter_consistency_witness :
    a10.shared.done = a10.shared.success + a10.shared.fail ∧
      (empty_full_queue a10.sink_queue).length = a10.shared.done ∧
      a10.shared.total = (a10.shared.done : Int) := by
  have h := counter_consistency ctxA a10 reach_a10
  exact ⟨h.1, h.2.1 completed_a10, h.2.2 completed_a10 rfl⟩

/-- C2: every reachable state has exactly `max_outstanding_requests` consumer
coroutines, so at most that many collaborator calls are in flight; and a
consumer only enters the in-flight state from `idle` by consuming one
semaphore permit. -/
theorem concurrency_ceiling :
    (∀ ctx s, Reachable ctx s →
      s.cons.length = ctx.max_outstanding_requests ∧
        callingCount s.cons ≤ ctx.max_outstanding_requests) ∧
    (∀ ctx s s' (k c : Nat), Step ctx s s' →
      s'.cons[k]? = some (ConsState.calling c) →
      s.cons[k]? = some (ConsState.calling c) ∨
        (s.cons[k]? = some ConsState.idle ∧
          s.source_semaphore = s'.source_semaphore + 1 ∧
          0 < s.source_semaphore)) := by
  constructor
  · intro ctx s h
    have hI := reachable_inv h
    refine ⟨hI.consLen, ?_⟩
    calc callingCount s.cons ≤ s.cons.length := List.countP_le_length _
    _ = ctx.max_outstanding_requests := hI.consLen
  · intro ctx s s' k c st hk
    cases st with
    | prodEmit c2 rest cnt hp => exact Or.inl hk
    | prodFinish cnt hp => exact Or.inl hk
    | consDequeue i c2 rest hc hs hq =>
      by_cases hik : k = i
      · subst hik
        rw [List.getElem?_set_eq_of_lt _ (getElem?_lt hc)] at hk
        injection hk with hk2
        injection hk2 with hk3
        subst hk3
        refine Or.inr ⟨hc, ?_, hs⟩
        show s.source_semaphore = s.source_semaphore - 1 + 1
        omega
      · rw [List.getElem?_set_ne (fun hh => hik hh.symm)] at hk
        exact Or.inl hk
    | consExit i hc hs hq =>
      by_cases hik : k = i
      · subst hik
        rw [List.getElem?_set_eq_of_lt _ (getElem?_lt hc)] at hk
        simp at hk
      · rw [List.getElem?_set_ne (fun hh => hik hh.symm)] at hk
        exact Or.inl hk
    | consCallReturn i c2 hc =>
      by_cases hik : k = i
      · subst hik
        rw [List.getElem?_set_eq_of_lt _ (getElem?_lt hc)] at hk
        simp at hk
      · rw [List.getElem?_set_ne (fun hh => hik hh.symm)] at hk
        exact Or.inl hk
    | consAppend i r hc =>
      by_cases hik : k = i
      · subst hik
        rw [List.getElem?_set_eq_of_lt _ (getElem?_lt hc)] at hk
        simp at hk
      · rw [List.getElem?_set_ne (fun hh => hik hh.symm)] at hk
        exact Or.inl hk
    | consSuccess i r hc hcl =>
      by_cases hik : k = i
      · subst hik
        rw [List.getElem?_set_eq_of_lt _ (getElem?_lt hc)] at hk
        simp at hk
      · rw [List.getElem?_set_ne (fun hh => hik hh.symm)] at hk
        exact Or.inl hk
    | consFailStop i r hc hcl hf =>
      by_cases hik : k = i
      · subst hik
        rw [List.getElem?_set_eq_of_lt _ (getElem?_lt hc)] at hk
        simp at hk
      · rw [List.getElem?_set_ne (fun hh => hik hh.symm)] at hk
        exact Or.inl hk
    | consFailCont i r hc hcl hf =>
      by_cases hik : k = i
      · subst hik
        rw [List.getElem?_set_eq_of_lt _ (getElem?_lt hc)] at hk
        simp at hk
      · rw [List.getElem?_set_ne (fun hh => hik hh.symm)] at hk
        exact Or.inl hk
    | consSetStop i hc =>
      by_cases hik : k = i
      · subst hik
        rw [List.getElem?_set_eq_of_lt _ (getElem?_lt hc)] at hk
        simp at hk
      · rw [List.getElem?_set_ne (fun hh => hik hh.symm)] at hk
        exact Or.inl hk
    | cancObserve hcanc => exact Or.inl hk
    | cancRelease d hcanc hcond => exact Or.inl hk
    | cancRepoll d hcanc hcond => exact Or.inl hk
    | updFinish hu hcond => exact Or.inl hk
    | updRepoll hu hcond => exact Or.inl hk

/-- C2 witness: run A has one consumer, at most one in-flight call, and its
dequeue step consumed one permit. -/
theorem concurrency_ceiling_witness :
    a3.cons.length = 1 ∧ callingCount a3.cons ≤ 1 ∧
      (a2.cons[0]? = some ConsState.idle ∧
        a2.source_semaphore = a3.source_semaphore + 1 ∧
        0 < a2.source_semaphore) := by
  have h1 := concurrency_ceiling.1 ctxA a3 reach_a3
  have h2 := concurrency_ceiling.2 ctxA a2 a3 0 5 step_a2_a3 (by decide)
  refine ⟨h1.1, h1.2, ?_⟩
  rcases h2 with h2 | h2
  · exact absurd h2 (by decide)
  · exact h2

/-- C3: a raised call yields an `error_message`-only record classified fail; a
completed call with a non-accepted status yields the full success-shaped
record but is classified fail; an accepted status is classified success.  Any
transition that moves a consumer out of its counting stage increments `done`
and exactly one of `success` / `fail`, according to the classification; and an
outcome in the appending stage can always be appended to the sink unchanged. -/
theorem outcome_classification :
    (∀ (ok : List Int) m, buildResponse (RequestResult.exn m) =
        { error_message := some m } ∧
      classify ok (buildResponse (RequestResult.exn m)) = some Classified.fail) ∧
    (∀ (ok : List Int) t st j el,
      buildResponse (RequestResult.ok t st j el) =
        { text := some t, status_code := some st, json := some (jsonField j)
          elapsed := some el, error_message := none } ∧
      (st ∉ ok →
        classify ok (buildResponse (RequestResult.ok t st j el)) = some Classified.fail) ∧
      (st ∈ ok →
        classify ok (buildResponse (RequestResult.ok t st j el)) = some Classified.success)) ∧
    (∀ ctx s s' (k : Nat) r, Step ctx s s' →
      s.cons[k]? = some (ConsState.updating r) →
      s'.cons[k]? ≠ some (ConsState.updating r) →
      s'.shared.done = s.shared.done + 1 ∧
        ((classify ctx.ok_status_codes r = some Classified.success ∧
            s'.shared.success = s.shared.success + 1 ∧ s'.shared.fail = s.shared.fail) ∨
          (classify ctx.ok_status_codes r = some Classified.fail ∧
            s'.shared.fail = s.shared.fail + 1 ∧ s'.shared.success = s.shared.success))) ∧
    (∀ ctx s (k : Nat) r, s.cons[k]? = some (ConsState.appending r) →
      ∃ s', Step ctx s s' ∧ s'.sink_queue = s.sink_queue ++ [r] ∧
        s'.cons[k]? = some (ConsState.updating r)) := by
  refine ⟨?_, ?_, ?_, ?_⟩
  · intro ok m
    exact ⟨rfl, classify_buildResponse_exn ok m⟩
  · intro ok t st j el
    refine ⟨rfl, ?_, ?_⟩
    · intro hmem
      rw [classify_buildResponse_ok, if_neg hmem]
    · intro hmem
      rw [classify_buildResponse_ok, if_pos hmem]
  · intro ctx s s' k r st hk hne
    cases st with
    | prodEmit c rest cnt hp => exact absurd hk hne
    | prodFinish cnt hp => exact absurd hk hne
    | consDequeue i c rest hc hs hq =>
      by_cases hik : k = i
      · subst hik
        rw [hk] at hc
        simp at hc
      · rw [List.getElem?_set_ne (fun hh => hik hh.symm)] at hne
        exact absurd hk hne
    | consExit i hc hs hq =>
      by_cases hik : k = i
      · subst hik
        rw [hk] at hc
        simp at hc
      · rw [List.getElem?_set_ne (fun hh => hik hh.symm)] at hne
        exact absurd hk hne
    | consCallReturn i c hc =>
      by_cases hik : k = i
      · subst hik
        rw [hk] at hc
        simp at hc
      · rw [List.getElem?_set_ne (fun hh => hik hh.symm)] at hne
        exact absurd hk hne
    | consAppend i r2 hc =>
      by_cases hik : k = i
      · subst hik
        rw [hk] at hc
        simp at hc
      · rw [List.getElem?_set_ne (fun hh => hik hh.symm)] at hne
        exact absurd hk hne
    | consSuccess i r2 hc hcl =>
      by_cases hik : k = i
      · subst hik
        rw [hk] at hc
        injection hc with hc2
        injection hc2 with hc3
        subst hc3
        refine ⟨by simp [increment_success], Or.inl ⟨hcl, ?_, ?_⟩⟩
        · show (increment_success s.shared).success = s.shared.success + 1
          simp [increment_success]
        · show (increment_success s.shared).fail = s.shared.fail
          simp [increment_success]
      · rw [List.getElem?_set_ne (fun hh => hik hh.symm)] at hne
        exact absurd hk hne
    | consFailStop i r2 hc hcl hf =>
      by_cases hik : k = i
      · subst hik
        rw [hk] at hc
        injection hc with hc2
        injection hc2 with hc3
        subst hc3
        refine ⟨by simp [increment_fail], Or.inr ⟨hcl, ?_, ?_⟩⟩
        · show (increment_fail s.shared).fail = s.shared.fail + 1
          simp [increment_fail]
        · show (increment_fail s.shared).success = s.shared.success
          simp [increment_fail]
      · rw [List.getElem?_set_ne (fun hh => hik hh.symm)] at hne
        exact absurd hk hne
    | consFailCont i r2 hc hcl hf =>
      by_cases hik : k = i
      · subst hik
        rw [hk] at hc
        injection hc with hc2
        injection hc2 with hc3
        subst hc3
        refine ⟨by simp [increment_fail], Or.inr ⟨hcl, ?_, ?_⟩⟩
        · show (increment_fail s.shared).fail = s.shared.fail + 1
          simp [increment_fail]
        · show (increment_fail s.shared).success = s.shared.success
          simp [increment_fail]
      · rw [List.getElem?_set_ne (fun hh => hik hh.symm)] at hne
        exact absurd hk hne
    | consSetStop i hc =>
      by_cases hik : k = i
      · subst hik
        rw [hk] at hc
        simp at hc
      · rw [List.getElem?_set_ne (fun hh => hik hh.symm)] at hne
        exact absurd hk hne
    | cancObserve hcanc => exact absurd hk hne
    | cancRelease d hcanc hcond => exact absurd hk hne
    | cancRepoll d hcanc hcond => exact absurd hk hne
    | updFinish hu hcond => exact absurd hk hne
    | updRepoll hu hcond => exact absurd hk hne
  · intro ctx s k r hk
    refine ⟨_, Step.consAppend s k r hk, rfl, ?_⟩
    exact List.getElem?_set_eq_of_lt _ (getElem?_lt hk)

/-- C3 witness: run B's raised call produces the fail-classified
`error_message` record, and its counting step increments `done` and `fail`
only. -/
theorem outcome_classification_witness :
    classify [200] (buildResponse (RequestResult.exn "boom")) = some Classified.fail ∧
      b5.shared.done = b4.shared.done + 1 ∧
      b5.shared.fail = b4.shared.fail + 1 ∧ b5.shared.success = b4.shared.success := by
  have h1 := (outcome_classification.1 [200] "boom").2
  have h2 := outcome_classification.2.2.1 ctxB b4 b5 0 respB step_b4_b5
    (by decide) (by decide)
  rcases h2.2 with h3 | h3
  · exact absurd h3.1 (by decide)
  · exact ⟨h1, h2.1, h3.2.1, h3.2.2⟩

/-- C4: `async_sparp` rejects `attempts < 1` with the `ValueError` message
before assembling any pipeline state, and accepts `attempts >= 1`, starting
from a state with nothing enqueued, nothing dispatched and all counters
zero. -/
theorem attempts_validation (ctx : Ctx) (attempts : Int) :
    (attempts < 1 →
      async_sparp ctx attempts = Except.error "attempts should be at least 1") ∧
    (1 ≤ attempts →
      async_sparp ctx attempts = Except.ok (initState ctx) ∧
        (initState ctx).source_queue = [] ∧ (initState ctx).sink_queue = [] ∧
        (initState ctx).shared.done = 0 ∧
        (initState ctx).prod = ProdState.running ctx.configs 0 ∧
        (initState ctx).cons =
          List.replicate ctx.max_outstanding_requests ConsState.idle) := by
  constructor
  · intro h
    simp [async_sparp, h]
  · intro h
    refine ⟨?_, rfl, rfl, rfl, rfl, rfl⟩
    rw [async_sparp, if_neg (by omega)]

/-- C4 witness: `attempts = 0` is rejected, `attempts = 1` is accepted. -/
theorem attempts_validation_witness :
    async_sparp ctxA 0 = Except.error "attempts should be at least 1" ∧
      async_sparp ctxA 1 = Except.ok (initState ctxA) :=
  ⟨(attempts_validation ctxA 0).1 (by norm_num),
    ((attempts_validation ctxA 1).2 (by norm_num)).1⟩

/-- C5: the canceler performs at most one bulk release per run; the release
step adds exactly `max_outstanding_requests` permits, happens only when
`done == total` (with `total` known) or the stop flag is set, and moves the
canceler to its terminal state, from which it never acts again. -/
theorem canceler_release_once (ctx : Ctx) (s : PState) (h : Reachable ctx s) :
    s.cancelReleases ≤ 1 ∧ (s.cancelReleases = 1 ↔ s.canc = CancState.finished) ∧
      ∀ s', Step ctx s s' →
        (s'.cancelReleases ≠ s.cancelReleases →
          s'.cancelReleases = s.cancelReleases + 1 ∧
            s'.source_semaphore = s.source_semaphore + ctx.max_outstanding_requests ∧
            s'.canc = CancState.finished ∧
            (s.shared.total = (s.shared.done : Int) ∧ s.shared.total ≠ -1 ∨
              s.shared.should_stop = true)) ∧
        (s.canc = CancState.finished →
          s'.canc = CancState.finished ∧ s'.cancelReleases = s.cancelReleases) := by
  have hI := reachable_inv h
  refine ⟨hI.relLe, hI.relIff, ?_⟩
  intro s' st
  constructor
  · intro hne
    cases st with
    | cancRelease d hcanc hcond =>
      refine ⟨rfl, rfl, rfl, ?_⟩
      rcases Bool.or_eq_true_iff.mp hcond with hd | hstop
      · subst hd
        obtain ⟨_, _, _, ht, hdn⟩ := hI.obsDrained hcanc
        refine Or.inl ⟨?_, ?_⟩
        · rw [ht, hdn]
        · rw [ht]
          omega
      · exact Or.inr hstop
    | prodEmit c rest cnt hp => exact absurd rfl hne
    | prodFinish cnt hp => exact absurd rfl hne
    | consDequeue i c rest hc hs hq => exact absurd rfl hne
    | consExit i hc hs hq => exact absurd rfl hne
    | consCallReturn i c hc => exact absurd rfl hne
    | consAppend i r hc => exact absurd rfl hne
    | consSuccess i r hc hcl => exact absurd rfl hne
    | consFailStop i r hc hcl hf => exact absurd rfl hne
    | consFailCont i r hc hcl hf => exact absurd rfl hne
    | consSetStop i hc => exact absurd rfl hne
    | cancObserve hcanc => exact absurd rfl hne
    | cancRepoll d hcanc hcond => exact absurd rfl hne
    | updFinish hu hcond => exact absurd rfl hne
    | updRepoll hu hcond => exact absurd rfl hne
  · intro hfin
    cases st with
    | cancObserve hcanc =>
      rw [hfin] at hcanc
      simp at hcanc
    | cancRelease d hcanc hcond =>
      rw [hfin] at hcanc
      simp at hcanc
    | cancRepoll d hcanc hcond =>
      rw [hfin] at hcanc
      simp at hcanc
    | prodEmit c rest cnt hp => exact ⟨hfin, rfl⟩
    | prodFinish cnt hp => exact ⟨hfin, rfl⟩
    | consDequeue i c rest hc hs hq => exact ⟨hfin, rfl⟩
    | consExit i hc hs hq => exact ⟨hfin, rfl⟩
    | consCallReturn i c hc => exact ⟨hfin, rfl⟩
    | consAppend i r hc => exact ⟨hfin, rfl⟩
    | consSuccess i r hc hcl => exact ⟨hfin, rfl⟩
    | consFailStop i r hc hcl hf => exact ⟨hfin, rfl⟩
    | consFailCont i r hc hcl hf => exact ⟨hfin, rfl⟩
    | consSetStop i hc => exact ⟨hfin, rfl⟩
    | updFinish hu hcond => exact ⟨hfin, rfl⟩
    | updRepoll hu hcond => exact ⟨hfin, rfl⟩

/-- C5 witness: run A's canceler observed `done == total` and its release
step added exactly one permit (pool size 1), finishing the canceler. -/
theorem canceler_release_once_witness :
    a7.cancelReleases ≤ 1 ∧
      a8.cancelReleases = a7.cancelReleases + 1 ∧
      a8.source_semaphore = a7.source_semaphore + 1 ∧
      a8.canc = CancState.finished := by
  have h := canceler_release_once ctxA a7 reach_a7
  have h2 := ((h.2.2 a8 step_a7_a8).1 (by decide))
  exact ⟨h.1, h2.1, h2.2.1, h2.2.2.1⟩

/-- C6: no transition resets the stop flag; the flag only changes by a
consumer in the post-failure stage setting it to `true`; a consumer whose
outcome classified fail with `stop_on_first_fail` configured moves to that
stage while counting the failure; and from that stage the consumer's next
action sets the flag (idempotently). -/
theorem stop_flag_monotone (ctx : Ctx) (s s' : PState) (st : Step ctx s s') :
    (s.shared.should_stop = true → s'.shared.should_stop = true) ∧
      (s'.shared.should_stop ≠ s.shared.should_stop →
        s.shared.should_stop = false ∧ s'.shared.should_stop = true ∧
          ∃ i : Nat, s.cons[i]? = some ConsState.stopping) ∧
      (∀ (i : Nat) r, s.cons[i]? = some (ConsState.updating r) →
        classify ctx.ok_status_codes r = some Classified.fail →
        ctx.stop_on_first_fail = true →
        ∃ s2, Step ctx s s2 ∧ s2.cons[i]? = some ConsState.stopping ∧
          s2.shared.fail = s.shared.fail + 1) ∧
      (∀ (i : Nat), s.cons[i]? = some ConsState.stopping →
        ∃ s2, Step ctx s s2 ∧ s2.shared.should_stop = true) := by
  refine ⟨stop_mono st, ?_, ?_, ?_⟩
  · intro hne
    cases st with
    | prodEmit c rest cnt hp => exact absurd rfl hne
    | prodFinish cnt hp =>
      simp at hne
    | consDequeue i c rest hc hs hq => exact absurd rfl hne
    | consExit i hc hs hq => exact absurd rfl hne
    | consCallReturn i c hc => exact absurd rfl hne
    | consAppend i r hc => exact absurd rfl hne
    | consSuccess i r hc hcl =>
      simp [increment_success] at hne
    | consFailStop i r hc hcl hf =>
      simp [increment_fail] at hne
    | consFailCont i r hc hcl hf =>
      simp [increment_fail] at hne
    | consSetStop i hc =>
      cases hb : s.shared.should_stop with
      | true =>
        exfalso
        apply hne
        show (set_should_stop s.shared).should_stop = s.shared.should_stop
        rw [hb]
        rfl
      | false => exact ⟨rfl, rfl, i, hc⟩
    | cancObserve hcanc => exact absurd rfl hne
    | cancRelease d hcanc hcond => exact absurd rfl hne
    | cancRepoll d hcanc hcond => exact absurd rfl hne
    | updFinish hu hcond => exact absurd rfl hne
    | updRepoll hu hcond => exact absurd rfl hne
  · intro i r hk hcl hf
    refine ⟨{ s with shared := increment_fail s.shared, cons := s.cons.set i ConsState.stopping },
      Step.consFailStop s i r hk hcl hf, ?_, ?_⟩
    · exact List.getElem?_set_eq_of_lt _ (getElem?_lt hk)
    · show (increment_fail s.shared).fail = s.shared.fail + 1
      simp [increment_fail]
  · intro i hk
    exact ⟨{ s with shared := set_should_stop s.shared, cons := s.cons.set i ConsState.idle },
      Step.consSetStop s i hk, rfl⟩

/-- C6 witness: run B's failing consumer reaches the post-failure stage while
counting the failure, then flips the flag from `false` to `true`. -/
theorem stop_flag_monotone_witness :
    b5.shared.should_stop = false ∧ b6.shared.should_stop = true ∧
      (∃ s2, Step ctxB b4 s2 ∧ s2.cons[0]? = some ConsState.stopping ∧
        s2.shared.fail = b4.shared.fail + 1) := by
  have h := (stop_flag_monotone ctxB b5 b6 step_b5_b6).2.1 (by decide)
  have h3 := (stop_flag_monotone ctxB b4 b5 step_b4_b5).2.2.1 0 respB
    (by decide) (by decide) rfl
  exact ⟨h.1, h.2.1, h3⟩

/-- C7 counterexample: a sized source makes `total` known from the very first
state, while the producer has not yet enumerated anything -- `total` is not
Unknown until exhaustion in every run. -/
theorem total_unknown_counterexample :
    Reachable ctxB (initState ctxB) ∧
      (initState ctxB).prod = ProdState.running [7, 8] 0 ∧
      (initState ctxB).shared.total ≠ -1 :=
  ⟨Relation.ReflTransGen.refl, rfl, by decide⟩

/-- C7 (amended): the only transition that writes `total` is the producer's
post-exhaustion `set_total`, which fires at most once, from `-1` to the item
count; and in runs whose source reports no length, `total` stays `-1` until
the producer has enumerated the whole source. -/
theorem total_write_discipline :
    (∀ ctx s s', Reachable ctx s → Step ctx s s' →
      s'.shared.total ≠ s.shared.total →
      s.shared.total = -1 ∧ ∃ cnt, s.prod = ProdState.running [] cnt ∧
        s'.prod = ProdState.finished cnt ∧ s'.shared.total = (cnt : Int) ∧
        cnt = ctx.configs.length) ∧
    (∀ ctx s, ctx.sized = false → Reachable ctx s →
      s.shared.total = -1 ∨
        ∃ cnt, s.prod = ProdState.finished cnt ∧
          s.shared.total = (ctx.configs.length : Int)) := by
  constructor
  · intro ctx s s' hre st hne
    cases st with
    | prodFinish cnt hp =>
      by_cases hm : s.shared.total = -1
      · refine ⟨hm, cnt, hp, rfl, ?_, ?_⟩
        · show (set_total s.shared (cnt : Int)).total = (cnt : Int)
          rw [set_total_total, if_pos hm]
        · have h0 := (reachable_inv hre).prodRun [] cnt hp
          simpa using h0
      · exfalso
        apply hne
        show (set_total s.shared (cnt : Int)).total = s.shared.total
        rw [set_total_of_known _ _ hm]
    | prodEmit c rest cnt hp => exact absurd rfl hne
    | consDequeue i c rest hc hs hq => exact absurd rfl hne
    | consExit i hc hs hq => exact absurd rfl hne
    | consCallReturn i c hc => exact absurd rfl hne
    | consAppend i r hc => exact absurd rfl hne
    | consSuccess i r hc hcl =>
      simp [increment_success] at hne
    | consFailStop i r hc hcl hf =>
      simp [increment_fail] at hne
    | consFailCont i r hc hcl hf =>
      simp [increment_fail] at hne
    | consSetStop i hc =>
      simp [set_should_stop] at hne
    | cancObserve hcanc => exact absurd rfl hne
    | cancRelease d hcanc hcond => exact absurd rfl hne
    | cancRepoll d hcanc hcond => exact absurd rfl hne
    | updFinish hu hcond => exact absurd rfl hne
    | updRepoll hu hcond => exact absurd rfl hne
  · intro ctx s hf hre
    have hI := reachable_inv hre
    rcases hI.totalEq with h1 | h1
    · exact Or.inl h1
    · rcases hI.totalUnsized hf with h2 | ⟨cnt, h2⟩
      · exact Or.inl h2
      · exact Or.inr ⟨cnt, h2, h1⟩

/-- C7 witness: in the unsized run C, `total` is `-1` until the producer's
final step writes the enumerated count. -/
theorem total_write_discipline_witness :
    c1.shared.total = -1 ∧
      (∃ cnt, c1.prod = ProdState.running [] cnt ∧
        c2.prod = ProdState.finished cnt ∧ c2.shared.total = (cnt : Int) ∧
        cnt = ctxC.configs.length) ∧
      (c1.shared.total = -1 ∨
        ∃ cnt, c1.prod = ProdState.finished cnt ∧
          c1.shared.total = (ctxC.configs.length : Int)) := by
  have h := total_write_discipline.1 ctxC c1 c2 reach_c1 step_c1_c2 (by decide)
  have h2 := total_write_discipline.2 ctxC c1 rfl reach_c1
  exact ⟨h.1, h.2, h2⟩

/-- C8: a completed call whose body fails to decode still yields the full
success-shaped record, with the decode-error text embedded as the `json`
value; classification reads only `error_message` and `status_code`, so the
parse failure alone never classifies the task as failed; and the record is
still appended to the sink unchanged. -/
theorem parse_failure_embedded :
    (∀ t (st : Int) e (el : Rat),
      buildResponse (RequestResult.ok t st (JsonParse.error e) el) =
        { text := some t, status_code := some st
          json := some (JsonValue.decodeFailure ("Failed to decode json due to " ++ e))
          elapsed := some el, error_message := none }) ∧
    (∀ (ok : List Int) r r', r.error_message = r'.error_message →
      r.status_code = r'.status_code → classify ok r = classify ok r') ∧
    (∀ (ok : List Int) t (st : Int) j (el : Rat),
      classify ok (buildResponse (RequestResult.ok t st j el)) = some Classified.fail ↔
        st ∉ ok) ∧
    (∀ ctx s (k : Nat) t (st : Int) e (el : Rat),
      s.cons[k]? =
        some (ConsState.appending (buildResponse (RequestResult.ok t st (JsonParse.error e) el))) →
      ∃ s', Step ctx s s' ∧
        s'.sink_queue =
          s.sink_queue ++ [buildResponse (RequestResult.ok t st (JsonParse.error e) el)]) := by
  refine ⟨?_, ?_, ?_, ?_⟩
  · intro t st e el
    rfl
  · intro ok r r' h1 h2
    simp [classify, h1, h2]
  · intro ok t st j el
    rw [classify_buildResponse_ok]
    by_cases hmem : st ∈ ok <;> simp [hmem]
  · intro ctx s k t st e el hk
    exact ⟨_, Step.consAppend s k _ hk, rfl⟩

/-- C8 witness: a decode failure on a 200 response embeds the error text as
the json value, does not make the classification fail, and the record is
still appended. -/
theorem parse_failure_embedded_witness :
    buildResponse (RequestResult.ok "b" 200 (JsonParse.error "bad") 0) =
      { text := some "b", status_code := some 200
        json := some (JsonValue.decodeFailure ("Failed to decode json due to " ++ "bad"))
        elapsed := some 0, error_message := none } ∧
    (classify [200] (buildResponse (RequestResult.ok "b" 200 (JsonParse.error "bad") 0)) =
        some Classified.fail ↔ (200 : Int) ∉ ([200] : List Int)) ∧
    (∃ s', Step ctxA dState s' ∧
      s'.sink_queue = dState.sink_queue ++
        [buildResponse (RequestResult.ok "b" 200 (JsonParse.error "bad") 0)]) :=
  ⟨parse_failure_embedded.1 "b" 200 "bad" 0,
    parse_failure_embedded.2.2.1 [200] "b" 200 (JsonParse.error "bad") 0,
    parse_failure_embedded.2.2.2 ctxA dState 0 "b" 200 "bad" 0 rfl⟩

/-- C9: with a positive minimum spacing, consecutive producer admissions are
at least that far apart, because the producer suspends on
`asyncio.sleep(time_between_requests)` after every enqueue-and-release. -/
theorem producer_rate_limit (d : Rat) (items : List Nat) (start : Rat)
    (s : TProd) (_hd : 0 < d) (h : TReach d items start s) :
    Spaced d s.admitted := by
  have hch := treach_chain h
  have hadm : List.Chain' (fun a b => a + d ≤ b) s.admitted :=
    (List.chain'_append.mp hch).1
  intro i hi
  exact chain'_getD s.admitted hadm i (by omega)

/-- C9 witness: the two admissions of the spacing-1 run are 1 apart. -/
theorem producer_rate_limit_witness :
    (0 : Rat) < 1 ∧ Spaced 1 tRun.admitted ∧
      tRun.admitted.getD 0 0 + 1 ≤ tRun.admitted.getD 1 0 := by
  have h := producer_rate_limit 1 [1, 2] 0 tRun (by norm_num) treach_tRun
  exact ⟨by norm_num, h, h 0 (by decide)⟩

/-- C10: every response dict the consumer can build carries the
`error_message` key or the `status_code` key, so the classification
expression never raises `KeyError`; and every outcome sitting in the counting
stage of a reachable state can be counted, incrementing `done` and exactly
one of `success` / `fail`. -/
theorem classification_total :
    (∀ res, (buildResponse res).error_message ≠ none ∨
        (buildResponse res).status_code ≠ none) ∧
    (∀ (ok : List Int) res, classify ok (buildResponse res) ≠ none) ∧
    (∀ ctx s (k : Nat) r, Reachable ctx s →
      s.cons[k]? = some (ConsState.updating r) →
      classify ctx.ok_status_codes r ≠ none ∧
        ∃ s', Step ctx s s' ∧ s'.shared.done = s.shared.done + 1 ∧
          s'.shared.success + s'.shared.fail =
            s.shared.success + s.shared.fail + 1) := by
  refine ⟨?_, ?_, ?_⟩
  · intro res
    cases res <;> simp [buildResponse]
  · intro ok res
    exact classify_buildResponse_ne_none ok res
  · intro ctx s k r hre hk
    have hI := reachable_inv hre
    obtain ⟨res, hres⟩ := hI.payload r (Or.inr (getElem?_mem hk))
    have hcl : classify ctx.ok_status_codes r ≠ none := by
      rw [hres]
      exact classify_buildResponse_ne_none _ _
    refine ⟨hcl, ?_⟩
    cases hc : classify ctx.ok_status_codes r with
    | none => exact absurd hc hcl
    | some cl =>
      cases cl with
      | success =>
        refine ⟨{ s with shared := increment_success s.shared, cons := s.cons.set k ConsState.idle },
          Step.consSuccess s k r hk hc, ?_, ?_⟩
        · show (increment_success s.shared).done = s.shared.done + 1
          simp [increment_success]
        · show (increment_success s.shared).success + (increment_success s.shared).fail =
            s.shared.success + s.shared.fail + 1
          simp [increment_success]
          omega
      | fail =>
        cases hf : ctx.stop_on_first_fail with
        | true =>
          refine ⟨{ s with shared := increment_fail s.shared, cons := s.cons.set k ConsState.stopping },
            Step.consFailStop s k r hk hc hf, ?_, ?_⟩
          · show (increment_fail s.shared).done = s.shared.done + 1
            simp [increment_fail]
          · show (increment_fail s.shared).success + (increment_fail s.shared).fail =
              s.shared.success + s.shared.fail + 1
            simp [increment_fail]
            omega
        | false =>
          refine ⟨{ s with shared := increment_fail s.shared, cons := s.cons.set k ConsState.idle },
            Step.consFailCont s k r hk hc hf, ?_, ?_⟩
          · show (increment_fail s.shared).done = s.shared.done + 1
            simp [increment_fail]
          · show (increment_fail s.shared).success + (increment_fail s.shared).fail =
              s.shared.success + s.shared.fail + 1
            simp [increment_fail]
            omega

/-- C10 witness: run A's outcome carries `status_code`, classifies without a
key error, and its counting step increments the counters by exactly one. -/
theorem classification_total_witness :
    classify ctxA.ok_status_codes respA ≠ none ∧
      (∃ s', Step ctxA a5 s' ∧ s'.shared.done = a5.shared.done + 1 ∧
        s'.shared.success + s'.shared.fail =
          a5.shared.success + a5.shared.fail + 1) := by
  have h := classification_total.2.2 ctxA a5 0 respA reach_a5 (by decide)
  exact ⟨h.1, h.2⟩

end Sparp

